import Mathlib

/-!
Verification of the mininet testbed core (mininet.py) against its design
specification.  The Python source is shallowly embedded: Python `str` values
become Lean `String`s, dictionaries become association lists (first match
wins, insertion conses at the front), object attribute updates become record
updates, and fallible operations (assertion failures, `IndexError`) return
`Option`.  All definitions are translated from the source file; the one
clearly marked reference definition (`cmdSpec`) follows the spec's wording
for a refinement comparison.
-/

namespace Mininet

/-! ### Decimal printing: injectivity of `Nat.repr`

Interface names are built as `name + '-eth' + repr(n)` (Python backtick
repr), so "names are never reused" reduces to injectivity of the decimal
printer.  We prove `Nat.repr` injective by exhibiting a decoder.
-/

def digitVal (c : Char) : Nat := c.toNat - 48

def decodeDigits (l : List Char) : Nat :=
  l.foldl (fun a c => a * 10 + digitVal c) 0

theorem toDigitsCore_fuel :
    ∀ (f : Nat) {g n : Nat} (ds : List Char), n < f → n < g →
      Nat.toDigitsCore 10 f n ds = Nat.toDigitsCore 10 g n ds := by
  intro f
  induction f with
  | zero => intro g n ds hf _; omega
  | succ f ih =>
    intro g n ds hf hg
    match g, hg with
    | g + 1, _ =>
      simp only [Nat.toDigitsCore]
      by_cases h0 : n / 10 = 0
      · simp [h0]
      · simp only [h0, if_false]
        have hlt : n / 10 < n := Nat.div_lt_self (by omega) (by omega)
        exact ih _ (by omega) (by omega)

theorem toDigitsCore_append :
    ∀ (f n : Nat) (ds : List Char),
      Nat.toDigitsCore 10 f n ds = Nat.toDigitsCore 10 f n [] ++ ds := by
  intro f
  induction f with
  | zero => intro n ds; simp [Nat.toDigitsCore]
  | succ f ih =>
    intro n ds
    simp only [Nat.toDigitsCore]
    by_cases h0 : n / 10 = 0
    · simp [h0]
    · simp only [h0, if_false]
      rw [ih (n / 10) [Nat.digitChar (n % 10)],
          ih (n / 10) (Nat.digitChar (n % 10) :: ds), List.append_assoc]
      rfl

theorem toDigits_small {n : Nat} (h : n < 10) :
    Nat.toDigits 10 n = [Nat.digitChar n] := by
  simp only [Nat.toDigits, Nat.toDigitsCore]
  have h0 : n / 10 = 0 := Nat.div_eq_of_lt h
  have h1 : n % 10 = n := Nat.mod_eq_of_lt h
  simp [h0, h1]

theorem toDigits_step {n : Nat} (h : 10 ≤ n) :
    Nat.toDigits 10 n = Nat.toDigits 10 (n / 10) ++ [Nat.digitChar (n % 10)] := by
  have h0 : n / 10 ≠ 0 := by omega
  show Nat.toDigitsCore 10 (n + 1) n [] = _
  have hn : 0 < n := by omega
  simp only [Nat.toDigitsCore, h0, if_false]
  rw [toDigitsCore_append n (n / 10) [Nat.digitChar (n % 10)]]
  congr 1
  have hlt : n / 10 < n := Nat.div_lt_self hn (by omega)
  exact toDigitsCore_fuel n [] (by omega) (by omega)

theorem digitVal_digitChar : ∀ d : Nat, d < 10 → digitVal (Nat.digitChar d) = d := by
  decide

theorem decodeDigits_append_singleton (l : List Char) (c : Char) :
    decodeDigits (l ++ [c]) = decodeDigits l * 10 + digitVal c := by
  simp [decodeDigits, List.foldl_append]

theorem decode_toDigits (n : Nat) : decodeDigits (Nat.toDigits 10 n) = n := by
  induction n using Nat.strong_induction_on with
  | _ n ih =>
    by_cases h : n < 10
    · rw [toDigits_small h]
      simpa [decodeDigits] using digitVal_digitChar n h
    · push_neg at h
      rw [toDigits_step h, decodeDigits_append_singleton,
          ih (n / 10) (Nat.div_lt_self (by omega) (by omega)),
          digitVal_digitChar (n % 10) (Nat.mod_lt n (by omega))]
      omega

theorem natRepr_injective : Function.Injective Nat.repr := by
  intro n m h
  have hd : Nat.toDigits 10 n = Nat.toDigits 10 m := by
    have := congrArg String.data h
    simpa [Nat.repr, List.asString] using this
  have := congrArg decodeDigits hd
  simpa [decode_toDigits] using this

/-! ### String helpers

`strLast?` models Python's `s[-1]` (with `none` for the `IndexError` on an
empty string) and `strDropLast` models `s[:-1]`.
-/

def strLast? (s : String) : Option Char := s.data.getLast?

def strDropLast (s : String) : String := String.mk s.data.dropLast

theorem string_append_left_cancel {s a b : String} (h : s ++ a = s ++ b) :
    a = b := by
  have hd : s.data ++ a.data = s.data ++ b.data := by
    simpa [String.data_append] using congrArg String.data h
  have : a.data = b.data := List.append_cancel_left hd
  exact congrArg String.mk this

/-! ### Node data model

`Node.__init__` stores a name, the namespace flag, an interface counter, an
interface-name list, an IP map, a connectivity map and the `waiting` /
`execed` flags.  Process handles, pipes and the fd registries are external
OS resources and are not part of the data model.  Nodes are mutable objects
referenced from several places, so a node is denoted by a `NodeId` and a
world maps ids to node states.
-/

abbrev NodeId := Nat

structure NodeState where
  name : String
  inNamespace : Bool
  intfCount : Nat
  intfs : List String
  ips : List (String × String)
  connection : List (String × NodeId × String)
  waiting : Bool
  execed : Bool
deriving DecidableEq

/-- Node.__init__: fresh attribute state (shell spawning is external). -/
def Node.init (name : String) (inNamespace : Bool) : NodeState :=
  { name := name, inNamespace := inNamespace, intfCount := 0, intfs := [],
    ips := [], connection := [], waiting := false, execed := false }

/-- Python dict lookup on the connectivity map (first entry wins;
`connSet` conses at the front, giving overwrite semantics). -/
def connGet (s : NodeState) (k : String) : Option (NodeId × String) :=
  (s.connection.find? (fun p => p.1 == k)).map (fun p => p.2)

/-- Python dict assignment `self.connection[k] = v`. -/
def connSet (s : NodeState) (k : String) (v : NodeId × String) : NodeState :=
  { s with connection := (k, v) :: s.connection }

/-! ### The sentinel command protocol (Node.sendCmd / monitor / waitOutput / cmd)

Shell I/O is made explicit: `sendCmd` returns the line written to the
process's stdin, `monitor` and `waitOutput` take the chunk(s) produced by
`self.read(1024)` as input.  `none` models a crash (a failed `assert` or an
`IndexError` on `cmd[-1]`) or, for `waitOutput`, blocking forever because no
chunk ends in the sentinel.
-/

/-- The sentinel byte chr(0177) = ASCII 127. -/
def sentinelChar : Char := Char.ofNat 127

/-- The trailing shell directive written after the separator: in the Python
source, the literal `" echo -n '\\0177' \n"` (with xpg_echo, the shell
echoes the octal escape `\0177`, i.e. the sentinel byte 0x7F). -/
def sentinelDirective : String :=
  " echo -n " ++ String.singleton (Char.ofNat 39) ++ "\\0177"
    ++ String.singleton (Char.ofNat 39) ++ " \n"

/-- Node.sendCmd: `assert not self.waiting`; test `cmd[-1] == '&'` (strip
the `&` and use it as separator, else `;`); write command + separator +
sentinel directive; set `waiting`.  Returns (written line, new state). -/
def Node.sendCmd (s : NodeState) (cmd : String) : Option (String × NodeState) :=
  if s.waiting then none
  else
    match strLast? cmd with
    | none => none
    | some c =>
      if c = '&' then
        some (strDropLast cmd ++ "&" ++ sentinelDirective, { s with waiting := true })
      else
        some (cmd ++ ";" ++ sentinelDirective, { s with waiting := true })

/-- Node.monitor: `assert self.waiting`; read one chunk; if it is nonempty
and its last byte is the sentinel, clear `waiting` and return
(True, chunk minus sentinel), else return (False, chunk). -/
def Node.monitor (s : NodeState) (data : String) : Option (Bool × String × NodeState) :=
  if s.waiting then
    if strLast? data = some sentinelChar then
      some (true, strDropLast data, { s with waiting := false })
    else
      some (false, data, s)
  else none

/-- The `while True` read loop inside Node.waitOutput, accumulating chunks
until one ends in the sentinel (exhausting the chunks = blocking forever). -/
def waitLoop (output : String) : List String → Option String
  | [] => none
  | data :: rest =>
    if strLast? data = some sentinelChar then some (output ++ strDropLast data)
    else waitLoop (output ++ data) rest

/-- Node.waitOutput: `assert self.waiting`; loop reading chunks until the
sentinel arrives; then clear `waiting` and return the output. -/
def Node.waitOutput (s : NodeState) (chunks : List String) : Option (String × NodeState) :=
  if s.waiting then
    (waitLoop "" chunks).map (fun out => (out, { s with waiting := false }))
  else none

/-- Node.cmd: `self.sendCmd(cmd); return self.waitOutput()`. -/
def Node.cmd (s : NodeState) (c : String) (chunks : List String) :
    Option (String × NodeState) :=
  match Node.sendCmd s c with
  | none => none
  | some (_, s1) => Node.waitOutput s1 chunks

/-- Modelled from the spec (section 4.1), as the reference side of the
refinement claim: `cmd(cmdline)` = `sendCmd` followed by looping
`monitor()` until done, concatenating all chunks.  This is the loop. -/
def monitorLoop (s : NodeState) (acc : String) : List String → Option (String × NodeState)
  | [] => none
  | c :: rest =>
    match Node.monitor s c with
    | none => none
    | some (done, data, s1) =>
      if done then some (acc ++ data, s1) else monitorLoop s1 (acc ++ data) rest

/-- Modelled from the spec (section 4.1): the reference composition
`sendCmd` then loop `monitor()` until done. -/
def cmdSpec (s : NodeState) (c : String) (chunks : List String) :
    Option (String × NodeState) :=
  match Node.sendCmd s c with
  | none => none
  | some (_, s1) => monitorLoop s1 "" chunks

/-! ### Interface allocation (Node.intfName / newIntf) -/

/-- Node.intfName: `self.name + '-eth' + repr(n)`. -/
def intfName (s : NodeState) (n : Nat) : String :=
  s.name ++ "-eth" ++ Nat.repr n

/-- Node.newIntf: reserve `intfName(intfCount)`, bump the counter, append
the name to `intfs`. -/
def newIntf (s : NodeState) : String × NodeState :=
  let i := intfName s s.intfCount
  (i, { s with intfCount := s.intfCount + 1, intfs := s.intfs ++ [i] })

/-- Repeated allocation: the list of names returned by `k` successive
`newIntf` calls together with the final node state. -/
def allocRun (s : NodeState) : Nat → List String × NodeState
  | 0 => ([], s)
  | k + 1 =>
    let (i, s1) := newIntf s
    let (rest, s2) := allocRun s1 k
    (i :: rest, s2)

/-! ### Switch overrides (Switch.sendCmd / Switch.monitor)

When `execed` is set, `Switch.sendCmd` logs an error and returns without
writing anything (inner `none` = nothing written to the process) and
`Switch.monitor` returns `(True, '')` without touching any state; otherwise
both defer to the Node versions.
-/

def Switch.sendCmd (s : NodeState) (cmd : String) :
    Option (Option String × NodeState) :=
  if ¬s.execed then (Node.sendCmd s cmd).map (fun p => (some p.1, p.2))
  else some (none, s)

def Switch.monitor (s : NodeState) (data : String) :
    Option (Bool × String × NodeState) :=
  if ¬s.execed then Node.monitor s data
  else some (true, "", s)

/-! ### Links (createLink)

`makeIntfPair` and the retried `moveIntf` only touch kernel resources
(veth pairs and namespaces), not node attribute state, so `createLink`'s
effect on the data model is: allocate one interface name on each node and
record the two symmetric connectivity entries.
-/

abbrev World := NodeId → NodeState

def updateNode (w : World) (i : NodeId) (f : NodeState → NodeState) : World :=
  fun j => if j = i then f (w j) else w j

/-- createLink(node1, node2): `intf1 = node1.newIntf(); intf2 =
node2.newIntf(); ...; node1.connection[intf1] = (node2, intf2);
node2.connection[intf2] = (node1, intf1); return intf1, intf2`. -/
def createLink (w : World) (n1 n2 : NodeId) : (String × String) × World :=
  let r1 := newIntf (w n1)
  let intf1 := r1.1
  let w1 := updateNode w n1 (fun _ => r1.2)
  let r2 := newIntf (w1 n2)
  let intf2 := r2.1
  let w2 := updateNode w1 n2 (fun _ => r2.2)
  let w3 := updateNode w2 n1 (fun s => connSet s intf1 (n2, intf2))
  let w4 := updateNode w3 n2 (fun s => connSet s intf2 (n1, intf1))
  ((intf1, intf2), w4)

/-! ### retry

`retry(n, retry_delay, fn, *args)` runs `while not apply(fn, args) and
tries < n: sleep; tries += 1`, then reports a fatal error and exits when
`tries >= n`.  The i-th call of `fn` is modelled by `res i`; sleeping is
external.  `retryGo res calls gas` runs the loop with `calls` calls already
made and `gas = n - tries` remaining; it returns (total number of calls
made, fatal-exit flag).
-/

def retryGo (res : Nat → Bool) : Nat → Nat → Nat × Bool
  | calls, 0 =>
    -- tries = n: the loop condition still calls fn once, then exits either
    -- way (success short-circuits, failure fails the tries < n test), and
    -- tries >= n reports the fatal error.
    (calls + 1, true)
  | calls, gas + 1 =>
    if res calls then (calls + 1, false)
    else retryGo res (calls + 1) gas

def retry (n : Nat) (_retryDelay : Nat) (res : Nat → Bool) : Nat × Bool :=
  retryGo res 0 n

/-! ### Network.run / runTest

`run(test)` is `self.start(); result = self.runTest(test); self.stop();
return result` — straight-line code with no try/finally.  We embed it with
an explicit event trace and Python exception semantics: each step appends
its event(s); a raised exception skips the remaining steps and propagates.
The test callback is modelled by its outcome, `Except String α`
(`.error` = the callback raised).
-/

inductive Event where
  | start
  | testCall (controllers switches hosts : List String)
  | stop
deriving DecidableEq

structure NetSys where
  controllers : List String
  switches : List String
  hosts : List String
deriving DecidableEq

/-- A straight-line statement sequence with an event trace and exceptions. -/
def Proc (α : Type) := List Event → List Event × Except String α

def pBind {α β : Type} (m : Proc α) (f : α → Proc β) : Proc β := fun evs =>
  match m evs with
  | (evs1, Except.ok a) => f a evs1
  | (evs1, Except.error e) => (evs1, Except.error e)

def pPure {α : Type} (a : α) : Proc α := fun evs => (evs, Except.ok a)

def emit (e : Event) : Proc Unit := fun evs => (evs ++ [e], Except.ok ())

/-- Network.start: starts every controller and switch (external effects,
recorded as one event). -/
def Network.start (_net : NetSys) : Proc Unit := emit Event.start

/-- Network.stop: stops hosts, switches, controllers (external effects,
recorded as one event). -/
def Network.stop (_net : NetSys) : Proc Unit := emit Event.stop

/-- Network.runTest: `return test(self.controllers, self.switches,
self.hosts)` — the invocation is recorded with its argument tuple, and the
callback's outcome (result or raised exception) is returned. -/
def Network.runTest {α : Type} (net : NetSys)
    (test : List String → List String → List String → Except String α) :
    Proc α := fun evs =>
  (evs ++ [Event.testCall net.controllers net.switches net.hosts],
   test net.controllers net.switches net.hosts)

/-- Network.run: `self.start(); result = self.runTest(test); self.stop();
return result` (the log lines between the calls are external). -/
def Network.run {α : Type} (net : NetSys)
    (test : List String → List String → List String → Except String α) :
    Proc α :=
  pBind (Network.start net) (fun _ =>
    pBind (Network.runTest net test) (fun result =>
      pBind (Network.stop net) (fun _ =>
        pPure result)))

/-! ### TreeNet.treeNet

The recursive tree builder.  The three name generators `s0,s1,…`,
`h0,h1,…`, `nl:0,nl:1,…` are stateful; their state is the triple of
counters `Gens`.  `createLink` calls mutate only the link world (and the
kernel), not the returned switch/host lists, so they are not threaded
here.  `treeLoop` is the `for i in range(0, fanout)` loop, taking the
depth-(d-1) recursive builder as an argument.
-/

structure Gens where
  s : Nat
  h : Nat
  dp : Nat
deriving DecidableEq

def treeLoop (rec : Gens → String × List String × List String × Gens) :
    Nat → Gens → List String × List String × Gens
  | 0, g => ([], [], g)
  | i + 1, g =>
    let r := rec g
    let rest := treeLoop rec i r.2.2.2
    (r.2.1 ++ rest.1, r.2.2.1 ++ rest.2.1, rest.2.2)

/-- TreeNet.treeNet: depth 0 allocates one host leaf; otherwise allocate a
datapath name (kernel mode only) and a switch, then build `fanout`
subtrees, accumulating their switch and host lists.  Returns
(root, switches, hosts, generator state). -/
def treeNet (kernel : Bool) (fanout : Nat) :
    Nat → Gens → String × List String × List String × Gens
  | 0, g =>
    let host := "h" ++ Nat.repr g.h
    (host, [], [host], { g with h := g.h + 1 })
  | d + 1, g =>
    let g1 := if kernel then { g with dp := g.dp + 1 } else g
    let sw := "s" ++ Nat.repr g1.s
    let g2 := { g1 with s := g1.s + 1 }
    let r := treeLoop (treeNet kernel fanout d) fanout g2
    (sw, sw :: r.1, r.2.1, r.2.2)

/-- TreeNet.makeNet: run `treeNet(controller, depth, fanout)` and return
(switches, hosts). -/
def makeNet (kernel : Bool) (depth fanout : Nat) (g : Gens) :
    List String × List String :=
  let r := treeNet kernel fanout depth g
  (r.2.1, r.2.2.1)

/-! ### intfIsUp

`Node.intfIsUp(intf)` runs `'UP' in self.cmd('ifconfig ' + self.intfs[0])`.
The shell's response is modelled by an oracle `query` mapping the command
line sent to the output received; `self.intfs[0]` on a node with no
interfaces raises `IndexError` (`none`).
-/

/-- Python `pat in hay` substring test. -/
def listContainsSub (pat : List Char) : List Char → Bool
  | [] => pat.isPrefixOf []
  | h :: t => pat.isPrefixOf (h :: t) || listContainsSub pat t

def strContains (hay pat : String) : Bool := listContainsSub pat.data hay.data

/-- Node.intfIsUp. -/
def intfIsUp (query : String → String) (s : NodeState) (_intf : String) :
    Option Bool :=
  match s.intfs with
  | [] => none
  | first :: _ => some (strContains (query ("ifconfig " ++ first)) "UP")

/-! ## Claim C1: Network.run lifecycle -/

/-- C1, counterexample.  The claim states that the `stop` teardown occurs
even when the test callback raises; but `Network.run` has no try/finally,
so for a raising test the exception propagates out of `run` before
`self.stop()` is reached: on a concrete network with a test that raises,
the trace contains no stop event. -/
theorem claim_C1_counterexample :
    (Network.run ⟨["c0"], ["s0"], ["h0"]⟩
        (fun _ _ _ => (Except.error "boom" : Except String Nat)) []).2
      = Except.error "boom"
    ∧ Event.stop ∉ (Network.run ⟨["c0"], ["s0"], ["h0"]⟩
        (fun _ _ _ => (Except.error "boom" : Except String Nat)) []).1 := by
  exact ⟨rfl, by decide⟩

/-- C1, amended.  `Network.run test` invokes `start`, then the test
callback with `(controllers, switches, hosts)`, then `stop`, and returns
the test's result — when the test returns normally.  When the test raises,
the exception propagates and the `stop` teardown does NOT occur. -/
theorem claim_C1_amended {α : Type} (net : NetSys)
    (test : List String → List String → List String → Except String α)
    (evs : List Event) :
    (∀ v, test net.controllers net.switches net.hosts = Except.ok v →
      Network.run net test evs =
        (evs ++ [Event.start,
                 Event.testCall net.controllers net.switches net.hosts,
                 Event.stop],
         Except.ok v))
    ∧ (∀ e, test net.controllers net.switches net.hosts = Except.error e →
      Network.run net test evs =
        (evs ++ [Event.start,
                 Event.testCall net.controllers net.switches net.hosts],
         Except.error e)) := by
  constructor <;> intro x hx <;>
    simp [Network.run, Network.start, Network.stop, Network.runTest,
      pBind, pPure, emit, hx]

/-- C1 witness: the amended theorem applied to a concrete network and a
concrete succeeding test. -/
theorem claim_C1_witness :
    Network.run ⟨["c0"], ["s0"], ["h0"]⟩
        (fun _ _ _ => (Except.ok 7 : Except String Nat)) [] =
      ([Event.start, Event.testCall ["c0"] ["s0"] ["h0"], Event.stop],
       Except.ok 7) := by
  simpa using
    (claim_C1_amended ⟨["c0"], ["s0"], ["h0"]⟩
      (fun _ _ _ => (Except.ok 7 : Except String Nat)) []).1 7 rfl

/-! ## Claim C2: retry bound -/

theorem retryGo_allFail (res : Nat → Bool) (h : ∀ i, res i = false) :
    ∀ gas calls, retryGo res calls gas = (calls + gas + 1, true) := by
  intro gas
  induction gas with
  | zero => intro calls; simp [retryGo]
  | succ gas ih =>
    intro calls
    have hstep : retryGo res calls (gas + 1) = retryGo res (calls + 1) gas := by
      simp [retryGo, h calls]
    have harith : calls + 1 + gas + 1 = calls + (gas + 1) + 1 := by omega
    rw [hstep, ih (calls + 1), harith]

theorem retryGo_fatal (res : Nat → Bool) :
    ∀ gas calls, (retryGo res calls gas).2 = true ↔
      ∀ i, i < gas → res (calls + i) = false := by
  intro gas
  induction gas with
  | zero => intro calls; simp [retryGo]
  | succ gas ih =>
    intro calls
    by_cases h : res calls
    · have hstep : retryGo res calls (gas + 1) = (calls + 1, false) := by
        simp [retryGo, h]
      rw [hstep]
      constructor
      · intro hfalse; simp at hfalse
      · intro hall
        have h0 := hall 0 (by omega)
        rw [Nat.add_zero, h] at h0
        simp at h0
    · have hstep : retryGo res calls (gas + 1) = retryGo res (calls + 1) gas := by
        simp [retryGo, h]
      rw [hstep, ih (calls + 1)]
      constructor
      · intro hall i hi
        cases i with
        | zero => simpa using h
        | succ i =>
          have := hall i (by omega)
          have harith : calls + 1 + i = calls + (i + 1) := by omega
          rwa [harith] at this
      · intro hall i hi
        have := hall (i + 1) (by omega)
        have harith : calls + (i + 1) = calls + 1 + i := by omega
        rwa [harith] at this

/-- C2, counterexample.  The claim states that for an always-failing
operation `retry(n, delay, op)` calls `op` exactly `n` times (not `n+1`);
but the loop condition evaluates `op` once more after the final increment
of `tries`: with `n = 1` and an always-failing operation, the operation is
invoked 2 times. -/
theorem claim_C2_counterexample :
    (retry 1 0 (fun _ => false)).1 = 2
    ∧ (retry 1 0 (fun _ => false)).1 ≠ 1
    ∧ (retry 1 0 (fun _ => false)).2 = true := by decide

/-- C2, amended.  For every `n` and every operation that fails on every
invocation, `retry(n, delay, operation)` invokes the operation exactly
`n + 1` times and then reports a fatal failure (exit).  Moreover the fatal
failure is reported exactly when the first `n` invocations all fail
(so a success on invocation `n + 1` still aborts). -/
theorem claim_C2_amended (n delay : Nat) (res : Nat → Bool) :
    ((∀ i, res i = false) → retry n delay res = (n + 1, true))
    ∧ ((retry n delay res).2 = true ↔ ∀ i, i < n → res i = false) := by
  constructor
  · intro h
    have := retryGo_allFail res h n 0
    simpa [retry] using this
  · have := retryGo_fatal res n 0
    simpa [retry] using this

/-- C2 witness: the amended theorem applied to `n = 1`, always-failing
operation. -/
theorem claim_C2_witness : retry 1 0 (fun _ => false) = (2, true) :=
  (claim_C2_amended 1 0 (fun _ => false)).1 (fun _ => rfl)

/-! ## Claim C3: single outstanding command per Node -/

/-- A successful `sendCmd` requires `waiting = false` and only sets the
flag. -/
theorem sendCmd_some {s : NodeState} {c w : String} {s1 : NodeState}
    (h : Node.sendCmd s c = some (w, s1)) :
    s.waiting = false ∧ s1 = { s with waiting := true } := by
  unfold Node.sendCmd at h
  by_cases hwait : s.waiting
  · simp [hwait] at h
  · refine ⟨by simpa using hwait, ?_⟩
    cases hc : strLast? c with
    | none => rw [hc] at h; simp [hwait] at h
    | some ch =>
      rw [hc] at h
      by_cases hamp : ch = '&'
      · simp [hwait, hamp] at h
        exact h.2.symm
      · simp [hwait, hamp] at h
        exact h.2.symm

/-- C3: at most one command in flight per Node.  After a `sendCmd` is
accepted, the outstanding flag `waiting` is set; while it is set, any
second `sendCmd` is a contract violation (the `assert not self.waiting`
fails, modelled as `none`); not-done `monitor` returns keep the flag set
(still rejecting `sendCmd`), and exactly a `monitor` return with
`done = true` clears it. -/
theorem claim_C3_single_outstanding (s : NodeState) (c w : String)
    (s1 : NodeState) (h : Node.sendCmd s c = some (w, s1)) :
    s1.waiting = true
    ∧ (∀ c2, Node.sendCmd s1 c2 = none)
    ∧ (∀ d r s2, Node.monitor s1 d = some (false, r, s2) →
        s2.waiting = true ∧ ∀ c2, Node.sendCmd s2 c2 = none)
    ∧ (∀ d r s2, Node.monitor s1 d = some (true, r, s2) →
        s2.waiting = false) := by
  obtain ⟨-, hs1⟩ := sendCmd_some h
  subst hs1
  refine ⟨rfl, fun c2 => by simp [Node.sendCmd], ?_, ?_⟩
  · intro d r s2 hm
    unfold Node.monitor at hm
    by_cases hsent : strLast? d = some sentinelChar
    · simp [hsent] at hm
    · simp [hsent] at hm
      obtain ⟨-, hs2⟩ := hm
      subst hs2
      exact ⟨rfl, fun c2 => by simp [Node.sendCmd]⟩
  · intro d r s2 hm
    unfold Node.monitor at hm
    by_cases hsent : strLast? d = some sentinelChar
    · simp [hsent] at hm
      obtain ⟨-, hs2⟩ := hm
      subst hs2
      rfl
    · simp [hsent] at hm

/-- C3 witness: on a fresh node, `sendCmd "ls"` is accepted; the resulting
state rejects a second `sendCmd`. -/
theorem claim_C3_witness :
    Node.sendCmd { Node.init "h1" true with waiting := true } "pwd" = none
    ∧ ({ Node.init "h1" true with waiting := true } : NodeState).waiting = true := by
  have h := claim_C3_single_outstanding (Node.init "h1" true) "ls"
    ("ls" ++ ";" ++ sentinelDirective)
    { Node.init "h1" true with waiting := true } (by decide)
  exact ⟨h.2.1 "pwd", h.1⟩

/-! ## Claim C6: the written command line -/

/-- An accepted `sendCmd` writes command + separator + directive. -/
theorem sendCmd_accepted (s : NodeState) (c : String)
    (hw : s.waiting = false) (hc : c ≠ "") :
    Node.sendCmd s c =
      some ((if strLast? c = some '&' then strDropLast c ++ "&" else c ++ ";")
              ++ sentinelDirective,
            { s with waiting := true }) := by
  have hlast : ∃ ch, strLast? c = some ch := by
    cases hl : strLast? c with
    | none =>
      exfalso
      apply hc
      cases c with
      | mk data =>
        cases data with
        | nil => rfl
        | cons a l => simp [strLast?] at hl
    | some ch => exact ⟨ch, rfl⟩
  obtain ⟨ch, hch⟩ := hlast
  unfold Node.sendCmd
  rw [hch]
  by_cases hamp : ch = '&'
  · simp [hw, hamp, hch, String.append_assoc]
  · simp [hw, hamp, hch, String.append_assoc]

/-- C6: for every nonempty command accepted by `sendCmd`, the line written
to the process input is exactly the command, a separator, and the fixed
directive echoing the sentinel byte followed by a newline; the separator is
`&` (with the trailing `&` stripped from the command) when the command's
last character is `&`, and `;` otherwise.  (An empty command is not
writable: `cmd[-1]` raises IndexError.) -/
theorem claim_C6_written_line (s : NodeState) (c : String)
    (hw : s.waiting = false) (hc : c ≠ "") :
    Node.sendCmd s c =
      some ((if strLast? c = some '&' then strDropLast c ++ "&" else c ++ ";")
              ++ sentinelDirective,
            { s with waiting := true })
    ∧ strLast? sentinelDirective = some (Char.ofNat 10)
    ∧ sentinelDirective.data =
        [' ', 'e', 'c', 'h', 'o', ' ', '-', 'n', ' ', Char.ofNat 39,
         '\\', '0', '1', '7', '7', Char.ofNat 39, ' ', Char.ofNat 10] :=
  ⟨sendCmd_accepted s c hw hc, by decide, by decide⟩

/-- C6 witness: concrete foreground and background commands. -/
theorem claim_C6_witness :
    Node.sendCmd (Node.init "h1" true) "ls" =
      some ("ls" ++ ";" ++ sentinelDirective,
            { Node.init "h1" true with waiting := true })
    ∧ Node.sendCmd (Node.init "h1" true) "sleep 1 &" =
      some ("sleep 1 " ++ "&" ++ sentinelDirective,
            { Node.init "h1" true with waiting := true }) := by
  have h1 := (claim_C6_written_line (Node.init "h1" true) "ls" rfl
    (by decide)).1
  have h2 := (claim_C6_written_line (Node.init "h1" true) "sleep 1 &" rfl
    (by decide)).1
  constructor
  · rw [h1]
    have : strLast? "ls" = some 's' := by decide
    rw [this]
    simp [String.append_assoc]
  · rw [h2]
    have : strLast? "sleep 1 &" = some '&' := by decide
    rw [this]
    have hdrop : strDropLast "sleep 1 &" = "sleep 1 " := by decide
    simp [hdrop, String.append_assoc]

/-! ## Claim C9: Switch execed guard -/

/-- C9: when a Switch's `execed` flag is set, `sendCmd` writes nothing to
the process, reports an error and returns no result, leaving the state
unchanged, and `monitor` immediately returns `(True, '')`, also leaving
the state unchanged; when the flag is clear, both behave exactly as the
plain Node methods. -/
theorem claim_C9_execed_guard (s : NodeState) (c d : String) :
    (s.execed = true →
      Switch.sendCmd s c = some (none, s)
      ∧ Switch.monitor s d = some (true, "", s))
    ∧ (s.execed = false →
      Switch.sendCmd s c = (Node.sendCmd s c).map (fun p => (some p.1, p.2))
      ∧ Switch.monitor s d = Node.monitor s d) := by
  constructor <;> intro h <;>
    simp [Switch.sendCmd, Switch.monitor, h]

/-- C9 witness: a concrete execed switch. -/
theorem claim_C9_witness :
    Switch.sendCmd { Node.init "s0" false with execed := true } "ls" =
      some (none, { Node.init "s0" false with execed := true })
    ∧ Switch.monitor { Node.init "s0" false with execed := true } "x" =
      some (true, "", { Node.init "s0" false with execed := true }) :=
  (claim_C9_execed_guard { Node.init "s0" false with execed := true }
    "ls" "x").1 rfl

/-! ## Claim C7: cmd (sendCmd + waitOutput) refines the monitor loop -/

theorem string_foldl_append_shift :
    ∀ (l : List String) (s : String),
      l.foldl (fun r t => r ++ t) s = s ++ l.foldl (fun r t => r ++ t) "" := by
  intro l
  induction l with
  | nil => intro s; simp
  | cons a t ih =>
    intro s
    simp only [List.foldl_cons]
    rw [ih (s ++ a), ih ("" ++ a), String.empty_append, String.append_assoc]

theorem string_join_cons (a : String) (l : List String) :
    String.join (a :: l) = a ++ String.join l := by
  simp only [String.join, List.foldl_cons, String.empty_append]
  exact string_foldl_append_shift l a

/-- The read loop of `waitOutput` and the spec's `monitor()`-until-done
loop compute the same result from the same chunk stream, including the
final state with the outstanding flag cleared. -/
theorem waitLoop_eq_monitorLoop (s : NodeState) (hw : s.waiting = true) :
    ∀ chunks acc,
      (waitLoop acc chunks).map (fun out => (out, { s with waiting := false }))
        = monitorLoop s acc chunks := by
  intro chunks
  induction chunks with
  | nil => intro acc; simp [waitLoop, monitorLoop]
  | cons d rest ih =>
    intro acc
    by_cases hs : strLast? d = some sentinelChar
    · simp [waitLoop, monitorLoop, Node.monitor, hw, hs]
    · simp [waitLoop, monitorLoop, Node.monitor, hw, hs, ih]

/-- When no chunk before the last ends in the sentinel and the last chunk
does, the read loop returns all chunks concatenated with the sentinel
removed. -/
theorem waitLoop_concat :
    ∀ (pre : List String) (last : String) (acc : String),
      (∀ x ∈ pre, strLast? x ≠ some sentinelChar) →
      strLast? last = some sentinelChar →
      waitLoop acc (pre ++ [last])
        = some (acc ++ (String.join pre ++ strDropLast last)) := by
  intro pre
  induction pre with
  | nil =>
    intro last acc _ hl
    simp [waitLoop, hl, String.join]
  | cons x xs ih =>
    intro last acc hpre hl
    have hx : ¬(strLast? x = some sentinelChar) := hpre x (List.mem_cons_self x xs)
    simp only [List.cons_append, waitLoop, if_neg hx, List.append_eq]
    rw [ih last (acc ++ x) (fun y hy => hpre y (List.mem_cons_of_mem x hy)) hl,
        string_join_cons, String.append_assoc, String.append_assoc]

/-- C7: `cmd(cmdline)` — `sendCmd` followed by `waitOutput` — computes
exactly what the specified reference (`sendCmd` followed by looping
`monitor()` until done) computes, on every state, command and chunk
stream; and on a chunk stream whose last chunk (and only it) ends in the
sentinel byte, it returns all chunks concatenated with the sentinel byte
removed, with the outstanding flag cleared. -/
theorem claim_C7_cmd_refines_monitor_loop (s : NodeState) (c : String) :
    (∀ chunks, Node.cmd s c chunks = cmdSpec s c chunks)
    ∧ (∀ (pre : List String) (last : String),
        s.waiting = false → c ≠ "" →
        (∀ x ∈ pre, strLast? x ≠ some sentinelChar) →
        strLast? last = some sentinelChar →
        Node.cmd s c (pre ++ [last])
          = some (String.join pre ++ strDropLast last,
                  { s with waiting := false })) := by
  constructor
  · intro chunks
    unfold Node.cmd cmdSpec
    cases h : Node.sendCmd s c with
    | none => rfl
    | some p =>
      obtain ⟨w, s1⟩ := p
      have hs1 : s1 = { s with waiting := true } := (sendCmd_some h).2
      subst hs1
      unfold Node.waitOutput
      simpa using waitLoop_eq_monitorLoop { s with waiting := true } rfl chunks ""
  · intro pre last hw hc hpre hl
    have hsend := sendCmd_accepted s c hw hc
    unfold Node.cmd
    rw [hsend]
    unfold Node.waitOutput
    rw [waitLoop_concat pre last "" hpre hl]
    simp

/-- C7 witness: a two-chunk stream for `echo hello`. -/
theorem claim_C7_witness :
    Node.cmd (Node.init "h1" true) "echo hello"
        (["hel", "lo\n" ++ String.singleton sentinelChar])
      = some ("hello\n", { Node.init "h1" true with waiting := false }) := by
  have h := (claim_C7_cmd_refines_monitor_loop (Node.init "h1" true)
      "echo hello").2 ["hel"] ("lo\n" ++ String.singleton sentinelChar)
    rfl (by decide) (by decide) (by decide)
  have hjoin : String.join ["hel"]
      ++ strDropLast ("lo\n" ++ String.singleton sentinelChar) = "hello\n" := by
    decide
  rw [List.cons_append, List.nil_append] at h
  rw [h, hjoin]

/-! ## Claim C8: the interface allocator -/

theorem intfName_inj (s : NodeState) {n m : Nat} (h : intfName s n = intfName s m) :
    n = m := by
  unfold intfName at h
  exact natRepr_injective (string_append_left_cancel h)

/-- Allocation only reads the node name, which it preserves. -/
theorem newIntf_fields (s : NodeState) :
    newIntf s = (intfName s s.intfCount,
      { s with intfCount := s.intfCount + 1,
               intfs := s.intfs ++ [intfName s s.intfCount] }) := rfl

/-- `intfName` only reads the node's name, which allocation preserves. -/
theorem intfName_irrel (s : NodeState) (c : Nat) (l : List String) (n : Nat) :
    intfName { s with intfCount := c, intfs := l } n = intfName s n := rfl

theorem allocRun_spec (k : Nat) :
    ∀ s : NodeState,
      (allocRun s k).1 = (List.range' s.intfCount k).map (intfName s)
      ∧ (allocRun s k).2.intfCount = s.intfCount + k
      ∧ (allocRun s k).2.intfs = s.intfs ++ (allocRun s k).1 := by
  induction k with
  | zero => intro s; simp [allocRun]
  | succ k ih =>
    intro s
    obtain ⟨ih1, ih2, ih3⟩ := ih
      { s with
          intfCount := s.intfCount + 1,
          intfs := s.intfs ++ [intfName s s.intfCount] }
    refine ⟨?_, ?_, ?_⟩
    · simp only [allocRun, newIntf_fields, ih1, List.range'_succ]
      simp [List.map_congr_left (fun a _ => intfName_irrel s _ _ a)]
    · simp only [allocRun, newIntf_fields, ih2]
      omega
    · simp only [allocRun, newIntf_fields, ih3, ih1]
      simp [List.append_assoc]

/-- C8: the interface allocator returns `{nodeName}-eth{N}` where `N` is
the node's interface counter; the counter is incremented on every
allocation; across any run of `k` allocations the returned names are
pairwise distinct (never reused) and are appended, in order, to the
node's interface list; in particular for a node named `h3` with counter 0
the first two allocations return `h3-eth0` then `h3-eth1`, the counter
ends at 2 and the interface list is `[h3-eth0, h3-eth1]`. -/
theorem claim_C8_interface_allocator (s : NodeState) (k : Nat) :
    (∀ n, intfName s n = s.name ++ "-eth" ++ Nat.repr n)
    ∧ newIntf s = (intfName s s.intfCount,
        { s with intfCount := s.intfCount + 1,
                 intfs := s.intfs ++ [intfName s s.intfCount] })
    ∧ (allocRun s k).1 = (List.range' s.intfCount k).map (intfName s)
    ∧ (allocRun s k).2.intfCount = s.intfCount + k
    ∧ (allocRun s k).2.intfs = s.intfs ++ (allocRun s k).1
    ∧ (allocRun s k).1.Nodup
    ∧ (allocRun (Node.init "h3" true) 2).1 = ["h3-eth0", "h3-eth1"]
    ∧ (allocRun (Node.init "h3" true) 2).2.intfCount = 2
    ∧ (allocRun (Node.init "h3" true) 2).2.intfs = ["h3-eth0", "h3-eth1"] := by
  obtain ⟨h1, h2, h3⟩ := allocRun_spec k s
  refine ⟨fun n => rfl, rfl, h1, h2, h3, ?_, by decide, by decide, by decide⟩
  rw [h1]
  exact (List.nodup_range' _ _ _ (by omega)).map
    (fun a b hab => intfName_inj s hab)

/-! ## Claim C4: link symmetry -/

/-- C4: after `createLink(nodeA, nodeB)` returns `(i1, i2)`, nodeA's
connectivity map has key `i1` mapping to `(nodeB, i2)` and nodeB's has key
`i2` mapping to `(nodeA, i1)` — including the degenerate case
`nodeA = nodeB`, where the two fresh interface names differ because the
allocation counter strictly increases. -/
theorem claim_C4_link_symmetry (w : World) (a b : NodeId) :
    connGet ((createLink w a b).2 a) (createLink w a b).1.1
      = some (b, (createLink w a b).1.2)
    ∧ connGet ((createLink w a b).2 b) (createLink w a b).1.2
      = some (a, (createLink w a b).1.1) := by
  by_cases hab : a = b
  · subst hab
    have hne : intfName (w a) ((w a).intfCount + 1) ≠ intfName (w a) ((w a).intfCount) := by
      intro h
      have := intfName_inj (w a) h
      omega
    simp [createLink, updateNode, connSet, connGet, newIntf, List.find?,
      intfName_irrel, beq_iff_eq, hne]
  · simp [createLink, updateNode, connSet, connGet, newIntf, List.find?,
      intfName_irrel, beq_iff_eq, hab, Ne.symm hab]

/-! ## Claim C5: tree topology counts -/

/-- Number of switches produced at a given depth: 0 at depth 0, else one
root plus `fanout` subtrees. -/
def switchCount (k : Nat) : Nat → Nat
  | 0 => 0
  | d + 1 => 1 + k * switchCount k d

/-- Number of host leaves produced at a given depth. -/
def hostCount (k : Nat) : Nat → Nat
  | 0 => 1
  | d + 1 => k * hostCount k d

theorem treeLoop_len (f : Gens → String × List String × List String × Gens)
    (S H : Nat) (hf : ∀ g, (f g).2.1.length = S ∧ (f g).2.2.1.length = H) :
    ∀ i g, (treeLoop f i g).1.length = i * S
      ∧ (treeLoop f i g).2.1.length = i * H := by
  intro i
  induction i with
  | zero => intro g; simp [treeLoop]
  | succ i ih =>
    intro g
    have h1 := (hf g).1
    have h2 := (hf g).2
    have h3 := (ih (f g).2.2.2).1
    have h4 := (ih (f g).2.2.2).2
    constructor
    · simp only [treeLoop, List.length_append, h1, h3]
      ring
    · simp only [treeLoop, List.length_append, h2, h4]
      ring

theorem treeNet_len (kernel : Bool) (fanout : Nat) :
    ∀ d g, (treeNet kernel fanout d g).2.1.length = switchCount fanout d
      ∧ (treeNet kernel fanout d g).2.2.1.length = hostCount fanout d := by
  intro d
  induction d with
  | zero => intro g; simp [treeNet, switchCount, hostCount]
  | succ d ih =>
    intro g
    have hloop := treeLoop_len (treeNet kernel fanout d) (switchCount fanout d)
      (hostCount fanout d) ih fanout
    constructor
    · simp only [treeNet, List.length_cons, switchCount]
      rw [(hloop _).1]
      omega
    · simp only [treeNet, hostCount]
      rw [(hloop _).2]

theorem switchCount_geom (k : Nat) :
    ∀ d, switchCount k d = ∑ i ∈ Finset.range d, k ^ i := by
  intro d
  induction d with
  | zero => simp [switchCount]
  | succ d ih => rw [geom_sum_succ, switchCount, ih, Nat.add_comm]

theorem hostCount_pow (k : Nat) : ∀ d, hostCount k d = k ^ d := by
  intro d
  induction d with
  | zero => simp [hostCount]
  | succ d ih => rw [hostCount, ih, pow_succ, Nat.mul_comm]

/-- C5: the tree builder at depth 0 produces exactly one host and no
switches, for every fanout; at any depth `d ≥ 1` and fanout `k ≥ 1` it
produces exactly `1 + k + … + k^(d-1)` switches and `k^d` host leaves; in
particular `makeNet` at depth 2, fanout 2 yields exactly 3 switches and 4
hosts. -/
theorem claim_C5_tree_counts (kernel : Bool) :
    (∀ k g, (treeNet kernel k 0 g).2.1 = []
      ∧ (treeNet kernel k 0 g).2.2.1.length = 1)
    ∧ (∀ d k g, 1 ≤ d → 1 ≤ k →
        (treeNet kernel k d g).2.1.length = ∑ i ∈ Finset.range d, k ^ i
        ∧ (treeNet kernel k d g).2.2.1.length = k ^ d)
    ∧ (makeNet true 2 2 ⟨0, 0, 0⟩).1.length = 3
    ∧ (makeNet true 2 2 ⟨0, 0, 0⟩).2.length = 4 := by
  refine ⟨fun k g => ⟨rfl, rfl⟩, ?_, by decide, by decide⟩
  intro d k g _ _
  obtain ⟨h1, h2⟩ := treeNet_len kernel k d g
  rw [h1, h2, switchCount_geom, hostCount_pow]
  exact ⟨rfl, rfl⟩

/-- C5 witness: the depth-2 fanout-2 instance of the general count. -/
theorem claim_C5_witness :
    (treeNet true 2 2 ⟨0, 0, 0⟩).2.1.length = ∑ i ∈ Finset.range 2, 2 ^ i
    ∧ (treeNet true 2 2 ⟨0, 0, 0⟩).2.2.1.length = 2 ^ 2 :=
  (claim_C5_tree_counts true).2.1 2 2 ⟨0, 0, 0⟩ (by decide) (by decide)

/-! ## Claim C10: intfIsUp ignores its argument -/

/-- C10: `Node.intfIsUp(intf)` ignores its `intf` argument: on any node
with at least one allocated interface it reports the up-state of the
node's first interface `self.intfs[0]` (on a node with no interfaces it
raises), so two calls with different arguments on the same node state give
the same result. -/
theorem claim_C10_intfIsUp_ignores_arg (query : String → String)
    (s : NodeState) (i1 i2 : String) :
    intfIsUp query s i1 = intfIsUp query s i2
    ∧ (∀ first rest, s.intfs = first :: rest →
        intfIsUp query s i1
          = some (strContains (query ("ifconfig " ++ first)) "UP")) := by
  refine ⟨rfl, ?_⟩
  intro first rest h
  simp [intfIsUp, h]

/-- C10 witness: a node with two interfaces, queried with the name of its
second interface, still reports the state of the first one. -/
theorem claim_C10_witness :
    intfIsUp
        (fun c => if c = "ifconfig h1-eth0" then "h1-eth0 UP RUNNING" else "DOWN")
        { Node.init "h1" true with intfs := ["h1-eth0", "h1-eth1"] }
        "h1-eth1"
      = some true := by
  have h := (claim_C10_intfIsUp_ignores_arg
      (fun c => if c = "ifconfig h1-eth0" then "h1-eth0 UP RUNNING" else "DOWN")
      { Node.init "h1" true with intfs := ["h1-eth0", "h1-eth1"] }
      "h1-eth1" "x").2 "h1-eth0" ["h1-eth1"] rfl
  rw [h]
  decide

end Mininet
